import Mathlib

/-!
A verification development for the shared_lists web application.

The repository is a React SPA over a REST backend with a relational schema.
The definitions below are shallow embeddings of the client-side logic
(`src/frontend/src/api/client.ts`, `src/frontend/src/pages/PageView.tsx`,
`src/frontend/src/components/ListCard.tsx`, the ShareDialog component, the
public page view) and of the schema constraints in
`src/backend/migrations/*.sql`.  JavaScript strings, arrays and JSON values
are modelled with Lean strings, lists and a small JSON datatype; the
browser-visible side effects of a request (localStorage removal, navigation)
are returned explicitly.
-/

namespace SharedLists

/-! ## JSON values and HTTP responses as the API client inspects them -/

/-- A parsed JSON value, at the granularity the API client looks at it:
an object with string keys, a string, or anything else (number, boolean,
null, array). -/
inductive JVal where
  | obj (fields : List (String × JVal))
  | str (s : String)
  | other

/-- The body of an HTTP response as observed through `response.text()` /
`response.json()`: empty text, non-empty text that fails to parse as JSON,
text that parses to a JSON value, or a body whose read itself rejects. -/
inductive JsBody where
  | empty
  | invalid
  | value (v : JVal)
  | unreadable

/-- An HTTP response as far as `ApiClient.request` consumes it. -/
structure HttpResponse where
  status : Nat
  statusText : String
  body : JsBody

/-- `Response.ok` of the fetch API: the status is in the range 200..299. -/
def responseOk (status : Nat) : Bool :=
  200 ≤ status && status ≤ 299

/-- `response.json().catch(() => ({}))`: the parsed body, or an empty object
when the body is empty, unparsable or unreadable. -/
def jsonOrEmptyObj : JsBody → JVal
  | .value v => v
  | _ => .obj []

/-- Property access `d[key]` on a parsed JSON value; `none` models
`undefined` (non-object values have no own properties the client reads). -/
def getField (d : JVal) (key : String) : Option JVal :=
  match d with
  | .obj fields => (fields.find? (fun f => f.1 == key)).map (fun f => f.2)
  | _ => none

/-- `getErrorMessageFromData` from `src/frontend/src/api/client.ts`:
the `error` field when it is a string, else the `message` field when it is a
string, else `undefined`.  A falsy non-object (e.g. JSON `null`) yields
`undefined` through the `if (!d)` guard, which `getField` already covers. -/
def getErrorMessageFromData (d : JVal) : Option String :=
  match getField d "error" with
  | some (.str s) => some s
  | _ =>
    match getField d "message" with
    | some (.str s) => some s
    | _ => none

/-- JavaScript `a || b` for strings: `b` when `a` is empty (falsy). -/
def jsOrString (a b : String) : String :=
  if a = "" then b else a

/-- The message thrown for a non-ok, non-401 response in
`ApiClient.request`: `getErrorMessageFromData(errorData) ||
response.statusText || "HTTP error! status: N"`, where an absent result and
an empty-string result are equally falsy. -/
def errorMessageFor (d : JVal) (statusText : String) (status : Nat) : String :=
  jsOrString (jsOrString ((getErrorMessageFromData d).getD "") statusText)
    ("HTTP error! status: " ++ toString status)

/-- `pathname === '/login' || pathname.startsWith('/auth')` from the 401
branch of `ApiClient.request`. -/
def isAuthPage (pathname : String) : Bool :=
  pathname == "/login" || pathname.startsWith "/auth"

/-- The outcome of `ApiClient.request`: a thrown error, or a returned value
where `none` stands for `undefined`. -/
inductive Outcome where
  | thrown (msg : String)
  | success (value : Option JVal)

/-- The browser-visible side effects `ApiClient.request` performs:
`localStorage.removeItem('auth_token')` and assignment to
`window.location.href`. -/
structure Effects where
  removedAuthToken : Bool
  navigatedTo : Option String
deriving DecidableEq, Repr

/-- No side effects. -/
def noEffects : Effects := ⟨false, none⟩

/-- The response handling of `ApiClient.request`
(`src/frontend/src/api/client.ts`, lines 93-153), as a function of the
received response and the current `window.location.pathname`:
a 401 removes the stored token, navigates to `/login` unless already on an
auth page, and throws `Unauthorized`; any other non-ok response throws the
extracted error message; a 204 returns `undefined`; otherwise the parsed
body is returned, with empty/unparsable/unreadable bodies yielding
`undefined` through the surrounding `try`/`catch`. -/
def request (resp : HttpResponse) (pathname : String) : Effects × Outcome :=
  if resp.status = 401 then
    ({ removedAuthToken := true,
       navigatedTo := if isAuthPage pathname then none else some "/login" },
     .thrown "Unauthorized")
  else if responseOk resp.status then
    if resp.status = 204 then
      (noEffects, .success none)
    else
      match resp.body with
      | .value v => (noEffects, .success (some v))
      | _ => (noEffects, .success none)
  else
    (noEffects,
     .thrown (errorMessageFor (jsonOrEmptyObj resp.body) resp.statusText resp.status))

/-! ## The error-message selection of claim C8, spec-side definitions -/

/-- The error-message selection exactly as claim C8 words it: the body's
string-valued `error` field if present, otherwise the string-valued
`message` field if present, otherwise the status text with the generic
`HTTP error! status: N` text as the final fallback. -/
def claimedErrorMessage (d : JVal) (statusText : String) (status : Nat) : String :=
  match getField d "error" with
  | some (.str s) => s
  | _ =>
    match getField d "message" with
    | some (.str s) => s
    | _ => jsOrString statusText ("HTTP error! status: " ++ toString status)

/-- The error-message selection as amended: a present string-valued `error`
field is used only when non-empty; a present but empty string `error` field
suppresses the `message` field entirely and falls through to the fallback;
otherwise a present, non-empty string `message` field is used; the fallback
is the status text when non-empty, else `HTTP error! status: N`. -/
def amendedErrorMessage (d : JVal) (statusText : String) (status : Nat) : String :=
  let fallback := if statusText = "" then "HTTP error! status: " ++ toString status
                  else statusText
  match getField d "error" with
  | some (.str s) => if s = "" then fallback else s
  | _ =>
    match getField d "message" with
    | some (.str s) => if s = "" then fallback else s
    | _ => fallback

/-! ## ShareDialog slug validation -/

/-- A character accepted by the slug pattern `[a-z0-9-]`. -/
def isSlugChar (c : Char) : Bool :=
  (Char.ofNat 97 ≤ c && c ≤ Char.ofNat 122) ||
  (Char.ofNat 48 ≤ c && c ≤ Char.ofNat 57) ||
  c == Char.ofNat 45

/-- The test `/^[a-z0-9-]{3,50}$/.test(slug)` from `handleSaveLink`, on the
slug given as its character sequence: between 3 and 50 characters, all from
`[a-z0-9-]`. -/
def slugRegexTest (s : List Char) : Bool :=
  3 ≤ s.length && s.length ≤ 50 && s.all isSlugChar

/-- A character removed by JavaScript `String.prototype.trim` (the white
space and line terminators relevant here). -/
def jsWhitespace (c : Char) : Bool :=
  c == Char.ofNat 32 || c == Char.ofNat 9 || c == Char.ofNat 10 ||
  c == Char.ofNat 13 || c == Char.ofNat 11 || c == Char.ofNat 12 ||
  c == Char.ofNat 160

/-- JavaScript `slug.trim()`: white space stripped from both ends. -/
def jsTrim (s : List Char) : List Char :=
  ((s.dropWhile jsWhitespace).reverse.dropWhile jsWhitespace).reverse

/-- What the share dialog does with a save or remove click: show a
validation error (identified by its translation key) without any request,
or issue the set-public-slug request with the given value (`none` is the
cleared slug). -/
inductive SaveLinkAction where
  | validationError (key : String)
  | sendRequest (slugValue : Option (List Char))
deriving DecidableEq, Repr

/-- `handleSaveLink` from the ShareDialog component: an all-whitespace slug
shows `share.slug_empty`, a slug failing the pattern shows
`share.slug_invalid`, and only otherwise is the set-public-slug request
issued with the slug. -/
def handleSaveLink (slug : List Char) : SaveLinkAction :=
  if jsTrim slug = [] then .validationError "share.slug_empty"
  else if slugRegexTest slug = false then .validationError "share.slug_invalid"
  else .sendRequest (some slug)

/-- `handleRemoveLink` from the ShareDialog component: always issues the
set-public-slug request with `null`. -/
def handleRemoveLink : SaveLinkAction :=
  .sendRequest none

end SharedLists

namespace SharedLists

/-! ## Theorems for claims C3, C8, C10, C6 -/

/-- Claim C3: a 401 response makes the client remove the stored auth token,
throw an Unauthorized error, and navigate to /login exactly when the current
pathname is not an auth-flow page (`/login` or a path starting with
`/auth`). -/
theorem unauthorized_removes_token_and_redirects
    (resp : HttpResponse) (pathname : String) (h : resp.status = 401) :
    (request resp pathname).1.removedAuthToken = true ∧
    (request resp pathname).2 = .thrown "Unauthorized" ∧
    ((request resp pathname).1.navigatedTo = some "/login" ↔
      ¬ (pathname = "/login" ∨ pathname.startsWith "/auth" = true)) := by
  simp only [request, h, if_pos rfl]
  refine ⟨rfl, rfl, ?_⟩
  by_cases ha : isAuthPage pathname = true
  · have hdis : pathname = "/login" ∨ pathname.startsWith "/auth" = true := by
      simpa [isAuthPage, beq_iff_eq] using ha
    simp [ha, hdis]
  · have hdis : ¬ (pathname = "/login" ∨ pathname.startsWith "/auth" = true) := by
      simpa [isAuthPage, beq_iff_eq] using ha
    simp [ha, hdis]

/-- Witness for claim C3 at a concrete 401 response on a non-auth page. -/
theorem unauthorized_removes_token_and_redirects_witness :
    (request ⟨401, "Unauthorized", .empty⟩ "/pages/abc").1.removedAuthToken = true ∧
    (request ⟨401, "Unauthorized", .empty⟩ "/pages/abc").2 = .thrown "Unauthorized" ∧
    ((request ⟨401, "Unauthorized", .empty⟩ "/pages/abc").1.navigatedTo = some "/login" ↔
      ¬ ("/pages/abc" = "/login" ∨ "/pages/abc".startsWith "/auth" = true)) :=
  unauthorized_removes_token_and_redirects ⟨401, "Unauthorized", .empty⟩ "/pages/abc" rfl

/-- Counterexample to claim C8 as stated: for a 400 response whose body is
`{"error": "", "message": "boom"}`, the claim selects the present
string-valued `error` field (the empty string), but the client throws the
status text `Bad Request` instead — the empty string is falsy and falls
through the `||` chain. -/
theorem error_message_priority_counterexample :
    (request ⟨400, "Bad Request",
        .value (.obj [("error", .str ""), ("message", .str "boom")])⟩ "/x").2 =
      .thrown "Bad Request" ∧
    claimedErrorMessage (.obj [("error", .str ""), ("message", .str "boom")])
        "Bad Request" 400 = "" ∧
    ("Bad Request" : String) ≠ "" := by
  refine ⟨?_, rfl, by decide⟩
  rfl

/-- Claim C8 as amended: for every non-ok, non-401 response the client
throws an error whose message is the body's `error` field when that is a
non-empty string; a present but empty string `error` field suppresses the
`message` field; otherwise a non-empty string `message` field; otherwise
the status text when non-empty; otherwise `HTTP error! status: N`. -/
theorem error_message_priority
    (resp : HttpResponse) (pathname : String)
    (hok : responseOk resp.status = false) (h401 : resp.status ≠ 401) :
    (request resp pathname).2 =
      .thrown (amendedErrorMessage (jsonOrEmptyObj resp.body)
        resp.statusText resp.status) := by
  have hreq : (request resp pathname).2 =
      .thrown (errorMessageFor (jsonOrEmptyObj resp.body)
        resp.statusText resp.status) := by
    simp [request, h401, hok]
  rw [hreq]
  congr 1
  unfold errorMessageFor amendedErrorMessage getErrorMessageFromData
  cases he : getField (jsonOrEmptyObj resp.body) "error" with
  | some v =>
    cases v with
    | str s =>
      by_cases hs : s = "" <;> simp [hs, jsOrString]
    | obj fields =>
      cases hm : getField (jsonOrEmptyObj resp.body) "message" with
      | some w =>
        cases w with
        | str t => by_cases ht : t = "" <;> simp [ht, jsOrString]
        | obj fs => simp [jsOrString]
        | other => simp [jsOrString]
      | none => simp [jsOrString]
    | other =>
      cases hm : getField (jsonOrEmptyObj resp.body) "message" with
      | some w =>
        cases w with
        | str t => by_cases ht : t = "" <;> simp [ht, jsOrString]
        | obj fs => simp [jsOrString]
        | other => simp [jsOrString]
      | none => simp [jsOrString]
  | none =>
    cases hm : getField (jsonOrEmptyObj resp.body) "message" with
    | some w =>
      cases w with
      | str t => by_cases ht : t = "" <;> simp [ht, jsOrString]
      | obj fs => simp [jsOrString]
      | other => simp [jsOrString]
    | none => simp [jsOrString]

/-- Witness for the amended claim C8 at a concrete 404 with an empty body:
the thrown message is the status text. -/
theorem error_message_priority_witness :
    (request ⟨404, "Not Found", .empty⟩ "/x").2 =
      .thrown (amendedErrorMessage (jsonOrEmptyObj JsBody.empty) "Not Found" 404) :=
  error_message_priority ⟨404, "Not Found", .empty⟩ "/x" (by decide) (by decide)

/-- Claim C10: a successful (2xx) response never makes the client throw on
body handling — a 204, an empty body, an unparsable body, and an unreadable
body all yield `undefined` rather than an exception. -/
theorem success_body_never_throws
    (resp : HttpResponse) (pathname : String)
    (hok : responseOk resp.status = true) :
    (∀ msg, (request resp pathname).2 ≠ .thrown msg) ∧
    ((resp.status = 204 ∨ resp.body = .empty ∨ resp.body = .invalid ∨
        resp.body = .unreadable) →
      (request resp pathname).2 = .success none) := by
  have h401 : resp.status ≠ 401 := by
    intro h
    rw [h] at hok
    simp [responseOk] at hok
  constructor
  · intro msg
    simp only [request, if_neg h401, hok, if_pos rfl]
    by_cases h204 : resp.status = 204
    · simp [h204]
    · cases hb : resp.body <;> simp [h204]
  · intro hcase
    simp only [request, if_neg h401, hok, if_pos rfl]
    by_cases h204 : resp.status = 204
    · simp [h204]
    · rcases hcase with h | h | h | h
      · exact absurd h h204
      all_goals simp [h204, h]

/-- Witness for claim C10 at a concrete 200 response with an unparsable
body. -/
theorem success_body_never_throws_witness :
    (∀ msg, (request ⟨200, "OK", .invalid⟩ "/x").2 ≠ .thrown msg) ∧
    (((200 : Nat) = 204 ∨ (JsBody.invalid = JsBody.empty) ∨
        (JsBody.invalid = JsBody.invalid) ∨ (JsBody.invalid = JsBody.unreadable)) →
      (request ⟨200, "OK", .invalid⟩ "/x").2 = .success none) :=
  success_body_never_throws ⟨200, "OK", .invalid⟩ "/x" (by decide)

/-- Claim C6: the set-public-slug request is issued exactly when the entered
slug is non-blank and matches `^[a-z0-9-]{3,50}$`; otherwise a validation
error is shown and no request is sent; and clearing the slug always issues
the request with null. -/
theorem slug_validation_gates_request (s : List Char) :
    (handleSaveLink s = .sendRequest (some s) ↔
      (jsTrim s ≠ [] ∧ slugRegexTest s = true)) ∧
    (¬ (jsTrim s ≠ [] ∧ slugRegexTest s = true) →
      ∃ key, handleSaveLink s = .validationError key) ∧
    handleRemoveLink = .sendRequest none := by
  refine ⟨?_, ?_, rfl⟩
  · constructor
    · intro h
      unfold handleSaveLink at h
      by_cases h1 : jsTrim s = []
      · simp [h1] at h
      · by_cases h2 : slugRegexTest s = false
        · simp [h1, h2] at h
        · exact ⟨h1, by simpa using h2⟩
    · rintro ⟨h1, h2⟩
      unfold handleSaveLink
      simp [h1, h2]
  · intro h
    unfold handleSaveLink
    by_cases h1 : jsTrim s = []
    · exact ⟨"share.slug_empty", by simp [h1]⟩
    · by_cases h2 : slugRegexTest s = true
      · exact absurd ⟨h1, h2⟩ h
      · exact ⟨"share.slug_invalid", by simp [h1, eq_false_of_ne_true h2]⟩

/-- Witness for claim C6: the slug `abc` is sent; it is non-blank and
matches the pattern. -/
theorem slug_validation_gates_request_witness :
    handleSaveLink [Char.ofNat 97, Char.ofNat 98, Char.ofNat 99] =
      .sendRequest (some [Char.ofNat 97, Char.ofNat 98, Char.ofNat 99]) :=
  ((slug_validation_gates_request
      [Char.ofNat 97, Char.ofNat 98, Char.ofNat 99]).1).mpr (by decide)

end SharedLists

namespace SharedLists

/-! ## The pages table and the public_slug unique index (migration 002) -/

/-- A row of the `pages` table as far as public slugs are concerned: the
primary key `id` and the nullable `public_slug` column added by
`src/backend/migrations/002_public_slug.sql`. -/
abbrev PageRow := Nat × Option String

/-- The guarantee of `CREATE UNIQUE INDEX idx_pages_public_slug ON
pages(public_slug)` under SQL semantics: no two distinct rows hold the same
non-null slug, while any number of rows may hold NULL. -/
def SlugsUnique (db : List PageRow) : Prop :=
  db.Pairwise (fun a b => a.2 = none ∨ a.2 ≠ b.2)

instance (db : List PageRow) : Decidable (SlugsUnique db) :=
  List.instDecidablePairwise db

/-- Modelled from the spec: the `PUT /pages/:id/public-slug` handler is not
among the sources under src (only the frontend client and the migrations
are); it is modelled as the UPDATE of the page's `public_slug`, which the
unique index `idx_pages_public_slug` of migration 002 makes fail with a
conflict when a different page already holds the requested non-null slug,
and which always succeeds when clearing to NULL. -/
def setPublicSlug (db : List PageRow) (pid : Nat) (slug : Option String) :
    Except Unit (List PageRow) :=
  match slug with
  | some s =>
    if db.any (fun r => r.1 != pid && r.2 == some s) then .error ()
    else .ok (db.map (fun r => if r.1 = pid then (r.1, some s) else r))
  | none => .ok (db.map (fun r => if r.1 = pid then (r.1, none) else r))

end SharedLists

namespace SharedLists

/-- Claim C7: with unique page ids and slug uniqueness holding, assigning a
slug already held by another page fails with a conflict; every successful
assignment (including clearing to null) preserves slug uniqueness and
leaves every other page's row untouched; and clearing to null always
succeeds. -/
theorem public_slug_unique
    (db : List PageRow) (pid : Nat)
    (hu : SlugsUnique db) (hnd : (db.map Prod.fst).Nodup) :
    (∀ s : String, (∃ r ∈ db, r.1 ≠ pid ∧ r.2 = some s) →
      setPublicSlug db pid (some s) = .error ()) ∧
    (∀ slug db2, setPublicSlug db pid slug = .ok db2 →
      SlugsUnique db2 ∧ ∀ r ∈ db, r.1 ≠ pid → r ∈ db2) ∧
    (∃ db2, setPublicSlug db pid none = .ok db2) := by
  have hne : db.Pairwise (fun a b : PageRow => a.1 ≠ b.1) :=
    List.pairwise_map.mp hnd
  refine ⟨?_, ?_, ?_⟩
  · rintro s ⟨r, hr, hrne, hrs⟩
    have hany : db.any (fun r => r.1 != pid && r.2 == some s) = true := by
      rw [List.any_eq_true]
      exact ⟨r, hr, by simp [hrne, hrs]⟩
    simp [setPublicSlug, hany]
  · intro slug db2 hok
    have hmem : ∀ r ∈ db, r.1 ≠ pid →
        r ∈ db.map (fun r : PageRow => if r.1 = pid then (r.1, slug) else r) := by
      intro r hr hrne
      have : (if r.1 = pid then (r.1, slug) else r) = r := by simp [hrne]
      exact this ▸ List.mem_map_of_mem _ hr
    match slug with
    | some s =>
      rw [setPublicSlug] at hok
      by_cases hany : db.any (fun r => r.1 != pid && r.2 == some s) = true
      · simp [hany] at hok
      · have hguard : ∀ r ∈ db, r.1 ≠ pid → r.2 ≠ some s := by
          intro r hr hrne hrs
          exact hany (List.any_eq_true.mpr ⟨r, hr, by simp [hrne, hrs]⟩)
        rw [if_neg hany, Except.ok.injEq] at hok
        subst hok
        constructor
        · rw [SlugsUnique, List.pairwise_map]
          have hcomb := (hu.and hne)
          refine hcomb.imp_of_mem ?_
          intro a b ha hb hab
          obtain ⟨hpair, habne⟩ := hab
          by_cases hA : a.1 = pid
          · by_cases hB : b.1 = pid
            · exact absurd (hA.trans hB.symm) habne
            · have : b.2 ≠ some s := hguard b hb hB
              simp only [if_pos hA, if_neg hB]
              exact Or.inr (by simpa using fun h => this h.symm)
          · by_cases hB : b.1 = pid
            · have : a.2 ≠ some s := hguard a ha hA
              simp only [if_neg hA, if_pos hB]
              rcases hpair with h | h
              · exact Or.inl h
              · exact Or.inr (by simpa using this)
            · simp only [if_neg hA, if_neg hB]
              exact hpair
        · exact hmem
    | none =>
      rw [setPublicSlug, Except.ok.injEq] at hok
      subst hok
      constructor
      · rw [SlugsUnique, List.pairwise_map]
        refine hu.imp_of_mem ?_
        intro a b _ _ hpair
        by_cases hA : a.1 = pid
        · simp [hA]
        · by_cases hB : b.1 = pid
          · simp only [if_neg hA, if_pos hB]
            rcases hpair with h | h
            · exact Or.inl h
            · match ha2 : a.2 with
              | none => exact Or.inl rfl
              | some t => exact Or.inr (by simp)
          · simp only [if_neg hA, if_neg hB]
            exact hpair
      · exact hmem
  · exact ⟨_, rfl⟩

/-- Witness for claim C7: with pages 1 (slug `team-todo`) and 2 (no slug),
setting `team-todo` on page 2 is rejected with a conflict. -/
theorem public_slug_unique_witness :
    setPublicSlug [(1, some "team-todo"), (2, none)] 2 (some "team-todo") =
      .error () :=
  (public_slug_unique [(1, some "team-todo"), (2, none)] 2
      (by decide) (by decide)).1 "team-todo"
    ⟨(1, some "team-todo"), by decide, by decide, rfl⟩

end SharedLists

namespace SharedLists

/-! ## Drag-and-drop reordering of sibling sets

`handleListsDragEnd` in `src/frontend/src/pages/PageView.tsx` and
`handleItemsDragEnd` in `src/frontend/src/components/ListCard.tsx` are the
same computation over the two sibling kinds (lists under a page, items
under a list); both are embedded once over a common entity record.  The
two positions mutations (`updateListPositionsMutation`,
`updateItemsPositionsMutation`) likewise share one embedding. -/

/-- A list (of a page) or a list item (of a list) as the reorder logic
sees it: its id and its `position` column.  Ids are numbered here; the
sibling set of one parent is a `List Entity`. -/
structure Entity where
  id : Nat
  position : Nat
deriving DecidableEq, Repr

/-- `arrayMove` from `@dnd-kit/sortable`: remove the element at index
`i` and re-insert it at index `j`. -/
def arrayMove (l : List Entity) (i j : Nat) : List Entity :=
  match l[i]? with
  | none => l
  | some x => (l.eraseIdx i).insertIdx j x

/-- `.map((l, idx) => ({ ...l, position: idx }))`: the entities annotated
with their index as position. -/
def withIndexPositions (l : List Entity) : List Entity :=
  l.enum.map (fun p => ⟨p.2.id, p.1⟩)

/-- The `changed` computation of the drag-end handlers: map the new order
to `(id, new index, previous position of that id in the displayed
sibling set)`, keep the entries whose previous position differs from the
new index (a missing previous position also differs), and project to the
`(id, position)` updates. -/
def changedUpdates (lists newOrder : List Entity) : List (Nat × Nat) :=
  ((newOrder.enum.map (fun p =>
      (p.2.id, p.1, (lists.find? (fun x => x.id == p.2.id)).map Entity.position))).filter
    (fun x => x.2.2 != some x.2.1)).map (fun x => (x.1, x.2.1))

/-- The order the client requests with a drag: the displayed sibling set
with the dragged (active) entity moved to the drop-target (over) entity's
index, per the `arrayMove` call of the drag-end handlers. -/
def requestedOrder (lists : List Entity) (activeId overId : Nat) : List Entity :=
  match lists.findIdx? (fun l => l.id == activeId),
        lists.findIdx? (fun l => l.id == overId) with
  | some oldIndex, some newIndex => arrayMove lists oldIndex newIndex
  | _, _ => lists

/-- `handleListsDragEnd` / `handleItemsDragEnd`: given the displayed
sibling set and the ids of the dragged and drop-target entities, the batch
of `(id, position)` updates handed to the positions mutation — or `none`
when the drag is dropped (no target, dropped on itself, unknown ids, or
nothing changed). -/
def handleDragEnd (lists : List Entity) (activeId overId : Nat) :
    Option (List (Nat × Nat)) :=
  if activeId = overId then none
  else
    match lists.findIdx? (fun l => l.id == activeId),
          lists.findIdx? (fun l => l.id == overId) with
    | some oldIndex, some newIndex =>
      let newOrder := withIndexPositions (arrayMove lists oldIndex newIndex)
      let changed := changedUpdates lists newOrder
      if changed = [] then none else some changed
    | _, _ => none

/-- The last position a batch of `(id, position)` updates records for a
given id, if any. -/
def lastPosFor (uid : Nat) (ups : List (Nat × Nat)) : Option Nat :=
  ups.foldl (fun acc u => if u.1 = uid then some u.2 else acc) none

/-- The net effect of a batch of per-entity position updates on a sibling
set: every entity whose id occurs in the batch takes the last position the
batch records for it; all other entities are untouched. -/
def applyBatch (db : List Entity) (ups : List (Nat × Nat)) : List Entity :=
  db.map (fun e => ⟨e.id, (lastPosFor e.id ups).getD e.position⟩)

/-- Modelled from the spec: the backend PATCH handler updating a single
list's or item's position is not among the sources under src (only the
frontend client and the migrations are).  Per the spec's §4.2 a single
update applies to one row of the parent's sibling set, and fails — the
request rejects — when the id does not belong to that sibling set (or the
caller lacks edit rights). -/
def patchPosition (db : List Entity) (uid pos : Nat) : Option (List Entity) :=
  if db.any (fun e => e.id == uid) then
    some (db.map (fun e => if e.id = uid then ⟨e.id, pos⟩ else e))
  else none

/-- The positions mutation of PageView / ListCard:
`Promise.all(updates.map(u => apiClient.updateList(pageId, u.listId,
{ position: u.position })))` — one independent request per update.  The
batch as a whole settles with failure when any single request fails, but
each request's server-side effect stands on its own; nothing rolls an
already-applied update back.  The result is the final server state and
whether the combined promise fulfilled.  `promiseStep` is one request
settling: its effect applies on success, the batch flag drops on
failure. -/
def promiseStep (st : List Entity × Bool) (u : Nat × Nat) : List Entity × Bool :=
  match patchPosition st.1 u.1 u.2 with
  | some db2 => (db2, st.2)
  | none => (st.1, false)

/-- The whole settled batch: every request applied in turn to the server
state, the flag recording whether all of them succeeded. -/
def promiseAllPatches (db : List Entity) (ups : List (Nat × Nat)) :
    List Entity × Bool :=
  ups.foldl promiseStep (db, true)

/-- One step of the `updates.forEach` loop in the `onMutate` optimistic
update: find the entity with the update's id and replace its position. -/
def applyOneUpdate (mutated : List Entity) (u : Nat × Nat) : List Entity :=
  match mutated.findIdx? (fun x => x.id == u.1) with
  | some idx =>
    match mutated[idx]? with
    | some x => mutated.set idx ⟨x.id, u.2⟩
    | none => mutated
  | none => mutated

/-- The `onMutate` optimistic cache update of the positions mutations:
copy the cached sibling set, apply every update in order, and sort the
result by position. -/
def optimisticReorder (old : List Entity) (ups : List (Nat × Nat)) : List Entity :=
  (ups.foldl applyOneUpdate old).mergeSort (fun a b => a.position ≤ b.position)

/-- The client cache flow of a reorder whose batch fails, from the
`onMutate` / `onError` handlers of the positions mutations: `onMutate`
snapshots the cached sibling set (`none` models no cached data) and
applies the optimistic update; `onError` restores the snapshot when one
was taken. -/
def reorderWithFailure (cache : Option (List Entity)) (ups : List (Nat × Nat)) :
    Option (List Entity) :=
  let previous := cache
  let afterOptimistic := cache.map (fun old => optimisticReorder old ups)
  match previous with
  | some p => some p
  | none => afterOptimistic

end SharedLists

namespace SharedLists

/-! ## Lemmas about the reorder computation -/

/-- Any list is a permutation of its element at `i` consed onto the list
with index `i` erased. -/
theorem perm_getElem_cons_eraseIdx :
    ∀ (l : List Entity) (i : Nat) (h : i < l.length),
      l.Perm (l[i] :: l.eraseIdx i)
  | [], i, h => absurd h (by simp)
  | a :: t, 0, _ => by simp
  | a :: t, i + 1, h => by
    have ht : i < t.length := by simpa using Nat.lt_of_succ_lt_succ h
    have ih := perm_getElem_cons_eraseIdx t i ht
    have s1 : (a :: t).Perm (a :: (t[i] :: t.eraseIdx i)) := ih.cons a
    have s2 : (a :: t[i] :: t.eraseIdx i).Perm (t[i] :: a :: t.eraseIdx i) :=
      List.Perm.swap t[i] a (t.eraseIdx i)
    simpa using s1.trans s2

/-- `arrayMove` with in-range indices permutes the sibling set. -/
theorem arrayMove_perm (l : List Entity) (i j : Nat)
    (hi : i < l.length) (hj : j < l.length) : (arrayMove l i j).Perm l := by
  have hget : l[i]? = some l[i] := List.getElem?_eq_getElem hi
  unfold arrayMove
  rw [hget]
  have hj2 : j ≤ (l.eraseIdx i).length := by
    rw [List.length_eraseIdx, if_pos hi]
    omega
  exact (List.perm_insertIdx l[i] (l.eraseIdx i) hj2).trans
    (perm_getElem_cons_eraseIdx l i hi).symm

/-- With unique ids, `find?` for a member's id returns that member. -/
theorem find?_id_self :
    ∀ (l : List Entity), (l.map Entity.id).Nodup → ∀ e ∈ l,
      l.find? (fun x => x.id == e.id) = some e
  | [], _, e, he => absurd he (List.not_mem_nil e)
  | a :: t, hnd, e, he => by
    rw [List.map_cons, List.nodup_cons] at hnd
    obtain ⟨ha, ht⟩ := hnd
    rcases List.mem_cons.mp he with rfl | het
    · rw [List.find?_cons_of_pos _ (by simp)]
    · have hne : (a.id == e.id) = false := by
        rw [beq_eq_false_iff_ne]
        intro hcontra
        exact ha (by rw [hcontra]; exact List.mem_map_of_mem Entity.id het)
      rw [List.find?_cons_of_neg _ (by simp [hne])]
      exact find?_id_self t ht e het

/-- Membership in the computed update batch, characterized. -/
theorem mem_changedUpdates {lists m : List Entity} {z : Nat × Nat} :
    z ∈ changedUpdates lists m ↔
      ∃ k e, m[k]? = some e ∧ z = (e.id, k) ∧
        (lists.find? (fun x => x.id == e.id)).map Entity.position ≠ some k := by
  unfold changedUpdates
  constructor
  · intro hz
    obtain ⟨x, hx, hxz⟩ := List.mem_map.mp hz
    obtain ⟨hxmem, hxfil⟩ := List.mem_filter.mp hx
    obtain ⟨p, hp, hpx⟩ := List.mem_map.mp hxmem
    have hpget : m[p.1]? = some p.2 := List.mem_enum_iff_getElem?.mp hp
    refine ⟨p.1, p.2, hpget, ?_, ?_⟩
    · rw [← hxz, ← hpx]
    · have := hxfil
      rw [← hpx] at this
      simpa [bne_iff_ne] using this
  · rintro ⟨k, e, hk, rfl, hne⟩
    refine List.mem_map.mpr
      ⟨(e.id, k, (lists.find? (fun x => x.id == e.id)).map Entity.position),
        ?_, rfl⟩
    refine List.mem_filter.mpr ⟨?_, ?_⟩
    · exact List.mem_map.mpr ⟨(k, e), List.mem_enum_iff_getElem?.mpr hk, rfl⟩
    · simpa [bne_iff_ne] using hne

/-- With unique ids, an id determines the index and element it occurs at. -/
theorem getElem?_key_unique {m : List Entity}
    (hnd : (m.map Entity.id).Nodup) {k k2 : Nat} {e e2 : Entity}
    (hk : m[k]? = some e) (hk2 : m[k2]? = some e2) (hid : e2.id = e.id) :
    k2 = k ∧ e2 = e := by
  obtain ⟨hklt, hkeq⟩ := List.getElem?_eq_some.mp hk
  obtain ⟨hk2lt, hk2eq⟩ := List.getElem?_eq_some.mp hk2
  have hmlt : k < (m.map Entity.id).length := by simpa using hklt
  have hm2lt : k2 < (m.map Entity.id).length := by simpa using hk2lt
  have hmk : (m.map Entity.id)[k2] = (m.map Entity.id)[k] := by
    rw [List.getElem_map, List.getElem_map, hkeq, hk2eq, hid]
  have hkk : k2 = k := (hnd.getElem_inj_iff).mp hmk
  refine ⟨hkk, ?_⟩
  subst hkk
  rw [← hkeq, ← hk2eq]

/-- `lastPosFor` run from an arbitrary accumulator. -/
theorem lastPosFor_foldl_init (uid : Nat) :
    ∀ (ups : List (Nat × Nat)) (a : Option Nat),
      ups.foldl (fun acc u => if u.1 = uid then some u.2 else acc) a =
        match lastPosFor uid ups with
        | some q => some q
        | none => a
  | [], a => rfl
  | u :: us, a => by
    have hcons : lastPosFor uid (u :: us) =
        us.foldl (fun acc v => if v.1 = uid then some v.2 else acc)
          (if u.1 = uid then some u.2 else none) := rfl
    rw [List.foldl_cons, hcons,
      lastPosFor_foldl_init uid us (if u.1 = uid then some u.2 else a),
      lastPosFor_foldl_init uid us (if u.1 = uid then some u.2 else none)]
    cases lastPosFor uid us with
    | some q => rfl
    | none => by_cases h : u.1 = uid <;> simp [h]

/-- `lastPosFor` is `none` when the batch never mentions the id. -/
theorem lastPosFor_eq_none (uid : Nat) :
    ∀ {ups : List (Nat × Nat)}, (∀ z ∈ ups, z.1 ≠ uid) →
      lastPosFor uid ups = none
  | [], _ => rfl
  | u :: us, h => by
    have hu : u.1 ≠ uid := h u (List.mem_cons_self u us)
    have hcons : lastPosFor uid (u :: us) =
        us.foldl (fun acc v => if v.1 = uid then some v.2 else acc)
          (if u.1 = uid then some u.2 else none) := rfl
    rw [hcons, if_neg hu]
    exact lastPosFor_eq_none uid (fun z hz => h z (List.mem_cons_of_mem u hz))

/-- A position recorded by `lastPosFor` comes from an entry of the batch. -/
theorem lastPosFor_mem (uid : Nat) :
    ∀ {ups : List (Nat × Nat)} {q : Nat}, lastPosFor uid ups = some q →
      ∃ z ∈ ups, z.1 = uid ∧ z.2 = q
  | [], q, h => by simp [lastPosFor] at h
  | u :: us, q, h => by
    have hcons : lastPosFor uid (u :: us) =
        us.foldl (fun acc v => if v.1 = uid then some v.2 else acc)
          (if u.1 = uid then some u.2 else none) := rfl
    rw [hcons, lastPosFor_foldl_init uid us] at h
    revert h
    cases hlp : lastPosFor uid us with
    | some r =>
      intro h
      obtain ⟨z, hz, hz1, hz2⟩ := lastPosFor_mem uid hlp
      have hrq : r = q := by simpa using h
      exact ⟨z, List.mem_cons_of_mem u hz, hz1, hz2.trans hrq⟩
    | none =>
      intro h
      by_cases hu : u.1 = uid
      · rw [if_pos hu] at h
        exact ⟨u, List.mem_cons_self u us, hu, by simpa using h⟩
      · rw [if_neg hu] at h
        simp at h

/-- `lastPosFor` records something as soon as some entry matches the id. -/
theorem lastPosFor_ne_none (uid : Nat) :
    ∀ (ups : List (Nat × Nat)) (z : Nat × Nat), z ∈ ups → z.1 = uid →
      lastPosFor uid ups ≠ none
  | [], z, hz, _ => absurd hz (List.not_mem_nil z)
  | u :: us, z, hz, hzid => by
    have hcons : lastPosFor uid (u :: us) =
        us.foldl (fun acc v => if v.1 = uid then some v.2 else acc)
          (if u.1 = uid then some u.2 else none) := rfl
    rw [hcons, lastPosFor_foldl_init uid us]
    cases hlp : lastPosFor uid us with
    | some r => simp
    | none =>
      rcases List.mem_cons.mp hz with rfl | hzt
      · rw [if_pos hzid]
        simp
      · exact absurd hlp (lastPosFor_ne_none uid us z hzt hzid)

/-- `lastPosFor` when every matching entry of the batch records the same
position and at least one entry matches. -/
theorem lastPosFor_eq_some (uid k : Nat) :
    ∀ {ups : List (Nat × Nat)}, (∀ z ∈ ups, z.1 = uid → z.2 = k) →
      (∃ z ∈ ups, z.1 = uid) → lastPosFor uid ups = some k
  | [], _, hex => by simp at hex
  | u :: us, hall, hex => by
    have hcons : lastPosFor uid (u :: us) =
        us.foldl (fun acc v => if v.1 = uid then some v.2 else acc)
          (if u.1 = uid then some u.2 else none) := rfl
    rw [hcons, lastPosFor_foldl_init uid us]
    cases hlp : lastPosFor uid us with
    | some r =>
      obtain ⟨z, hz, hz1, hz2⟩ := lastPosFor_mem uid hlp
      have : r = k := hz2 ▸ hall z (List.mem_cons_of_mem u hz) hz1
      rw [this]
    | none =>
      by_cases hu : u.1 = uid
      · rw [if_pos hu]
        rw [hall u (List.mem_cons_self u us) hu]
      · rw [if_neg hu]
        obtain ⟨z, hz, hz1⟩ := hex
        rcases List.mem_cons.mp hz with rfl | hzt
        · exact absurd hz1 hu
        · exact absurd hlp (lastPosFor_ne_none uid us z hzt hz1)

end SharedLists

namespace SharedLists

/-- The batch computed by a drag records, for the entity at index `k` of
the new order, exactly the position `k` — and only when that differs from
the entity's current position. -/
theorem lastPosFor_changedUpdates {lists m : List Entity}
    (hndl : (lists.map Entity.id).Nodup) (hperm : m.Perm lists)
    {k : Nat} {e : Entity} (hk : m[k]? = some e) :
    lastPosFor e.id (changedUpdates lists m) =
      if e.position = k then none else some k := by
  have hndm : (m.map Entity.id).Nodup :=
    ((hperm.map Entity.id).nodup_iff).mpr hndl
  have hel : e ∈ lists := hperm.mem_iff.mp (List.getElem?_mem hk)
  have hfind : lists.find? (fun x => x.id == e.id) = some e :=
    find?_id_self lists hndl e hel
  by_cases hpos : e.position = k
  · rw [if_pos hpos]
    apply lastPosFor_eq_none
    intro z hz hzid
    obtain ⟨k2, e2, hk2, heq, hne⟩ := mem_changedUpdates.mp hz
    have hid : e2.id = e.id := by
      have : z.1 = e2.id := by rw [heq]
      rw [← this, hzid]
    obtain ⟨hkk, hee⟩ := getElem?_key_unique hndm hk hk2 hid
    subst hkk
    subst hee
    rw [hfind] at hne
    exact hne (by simp [hpos])
  · rw [if_neg hpos]
    apply lastPosFor_eq_some
    · intro z hz hzid
      obtain ⟨k2, e2, hk2, heq, hne⟩ := mem_changedUpdates.mp hz
      have hid : e2.id = e.id := by
        have : z.1 = e2.id := by rw [heq]
        rw [← this, hzid]
      obtain ⟨hkk, hee⟩ := getElem?_key_unique hndm hk hk2 hid
      subst hkk
      rw [heq]
    · refine ⟨(e.id, k), ?_, rfl⟩
      refine mem_changedUpdates.mpr ⟨k, e, hk, rfl, ?_⟩
      rw [hfind]
      simp [hpos]

/-- Applying the computed batch to the reordered sibling set yields the
reordered set annotated with consecutive index positions. -/
theorem applyBatch_changedUpdates {lists m : List Entity}
    (hndl : (lists.map Entity.id).Nodup) (hperm : m.Perm lists) :
    applyBatch m (changedUpdates lists m) = withIndexPositions m := by
  apply List.ext_getElem
  · simp [applyBatch, withIndexPositions]
  · intro k h1 h2
    have hklt : k < m.length := by simpa [applyBatch] using h1
    have hk : m[k]? = some m[k] := List.getElem?_eq_getElem hklt
    simp only [applyBatch, withIndexPositions, List.getElem_map, List.getElem_enum]
    rw [lastPosFor_changedUpdates hndl hperm hk]
    by_cases hpos : (m[k]).position = k
    · rw [if_pos hpos]
      simp only [Option.getD_none, hpos]
    · rw [if_neg hpos]
      simp

/-- The reordered set annotated with index positions is strictly sorted by
position. -/
theorem withIndexPositions_sorted (m : List Entity) :
    (withIndexPositions m).Pairwise (fun a b => a.position < b.position) := by
  rw [List.pairwise_iff_getElem]
  intro i j hi hj hij
  have hi2 : i < m.enum.length := by simpa [withIndexPositions] using hi
  have hj2 : j < m.enum.length := by simpa [withIndexPositions] using hj
  simp only [withIndexPositions, List.getElem_map, List.getElem_enum]
  exact hij

/-- Annotating with index positions keeps the id sequence. -/
theorem withIndexPositions_map_id (m : List Entity) :
    (withIndexPositions m).map Entity.id = m.map Entity.id := by
  unfold withIndexPositions
  rw [List.map_map]
  have hfun : (Entity.id ∘ fun p : Nat × Entity => (⟨p.2.id, p.1⟩ : Entity)) =
      Entity.id ∘ Prod.snd := rfl
  rw [hfun, ← List.map_map, List.enum_map_snd]

/-- The batch computation only reads ids and indices of the new order, so
annotating the new order with index positions first changes nothing. -/
theorem changedUpdates_withIndexPositions (lists m : List Entity) :
    changedUpdates lists (withIndexPositions m) = changedUpdates lists m := by
  unfold changedUpdates
  congr 1
  apply congrArg
  apply List.ext_getElem
  · simp [withIndexPositions]
  · intro k h1 h2
    simp [withIndexPositions, List.getElem_map, List.getElem_enum]

instance : IsAntisymm Entity (fun a b => a.position < b.position) :=
  ⟨fun _ _ h1 h2 => absurd (h1.trans h2) (lt_irrefl _)⟩

/-- Replacing one entity's position never changes which ids the sibling
set holds. -/
theorem any_id_map_setPos (db : List Entity) (u1 p x : Nat) :
    ((db.map (fun e => if e.id = u1 then ⟨e.id, p⟩ else e)).any
        (fun e => e.id == x)) = db.any (fun e => e.id == x) := by
  rw [List.any_map]
  have hfun : ((fun e : Entity => e.id == x) ∘
      (fun e : Entity => if e.id = u1 then ⟨e.id, p⟩ else e)) =
      (fun e : Entity => e.id == x) := by
    funext e
    by_cases h : e.id = u1 <;> simp [h]
  rw [hfun]

/-- One request settling, when its id belongs to the sibling set. -/
theorem promiseStep_valid (db : List Entity) (b : Bool) (u : Nat × Nat)
    (hv : db.any (fun e => e.id == u.1) = true) :
    promiseStep (db, b) u =
      (db.map (fun e => if e.id = u.1 then ⟨e.id, u.2⟩ else e), b) := by
  simp [promiseStep, patchPosition, hv]

/-- One request settling, when its id is missing from the sibling set. -/
theorem promiseStep_invalid (db : List Entity) (b : Bool) (u : Nat × Nat)
    (hv : db.any (fun e => e.id == u.1) = false) :
    promiseStep (db, b) u = (db, false) := by
  simp [promiseStep, patchPosition, hv]

/-- The fold of the positions mutation, characterized: the final server
state applies every valid update independently (last write per id wins),
and the batch flag drops exactly when some update's id is missing from the
sibling set. -/
theorem promiseAll_foldl_spec :
    ∀ (ups : List (Nat × Nat)) (db : List Entity) (b : Bool),
      ups.foldl promiseStep (db, b) =
        (applyBatch db ups, b && ups.all (fun u => db.any (fun e => e.id == u.1)))
  | [], db, b => by
    have h1 : applyBatch db [] = db := by
      unfold applyBatch lastPosFor
      simp only [List.foldl_nil, Option.getD_none]
      exact List.map_id' db
    simp [h1]
  | u :: us, db, b => by
    rw [List.foldl_cons]
    by_cases hv : db.any (fun e => e.id == u.1) = true
    · rw [promiseStep_valid db b u hv,
        promiseAll_foldl_spec us (db.map fun e => if e.id = u.1 then ⟨e.id, u.2⟩ else e) b]
      have hfst : applyBatch (db.map fun e => if e.id = u.1 then ⟨e.id, u.2⟩ else e) us =
          applyBatch db (u :: us) := by
        unfold applyBatch
        rw [List.map_map]
        apply List.map_congr_left
        intro e _
        have hcons : lastPosFor e.id (u :: us) =
            us.foldl (fun acc v => if v.1 = e.id then some v.2 else acc)
              (if u.1 = e.id then some u.2 else none) := rfl
        by_cases heq : e.id = u.1
        · have hstep : lastPosFor e.id (u :: us) =
              match lastPosFor e.id us with
              | some q => some q
              | none => some u.2 := by
            rw [hcons, if_pos heq.symm, lastPosFor_foldl_init]
          simp only [Function.comp_apply, if_pos heq, hstep]
          cases lastPosFor e.id us with
          | some q => rfl
          | none => rfl
        · have hstep : lastPosFor e.id (u :: us) = lastPosFor e.id us := by
            rw [hcons, if_neg (fun hcontra => heq hcontra.symm), lastPosFor_foldl_init]
            cases lastPosFor e.id us <;> rfl
          simp only [Function.comp_apply, if_neg heq, hstep]
      have hsnd : (fun v : Nat × Nat =>
            (db.map fun e => if e.id = u.1 then ⟨e.id, u.2⟩ else e).any
              (fun e => e.id == v.1)) =
          (fun v : Nat × Nat => db.any (fun e => e.id == v.1)) := by
        funext v
        rw [any_id_map_setPos]
      rw [hfst, hsnd, List.all_cons, hv, Bool.true_and]
    · have hvf : db.any (fun e => e.id == u.1) = false := by
        simpa using hv
      rw [promiseStep_invalid db b u hvf, promiseAll_foldl_spec us db false]
      have hfst : applyBatch db us = applyBatch db (u :: us) := by
        unfold applyBatch
        apply List.map_congr_left
        intro e he
        have hne : u.1 ≠ e.id := by
          intro hcontra
          rw [List.any_eq_true] at hv
          exact hv ⟨e, he, by simp [hcontra]⟩
        have hcons : lastPosFor e.id (u :: us) =
            us.foldl (fun acc v => if v.1 = e.id then some v.2 else acc)
              (if u.1 = e.id then some u.2 else none) := rfl
        have hstep : lastPosFor e.id (u :: us) = lastPosFor e.id us := by
          rw [hcons, if_neg hne, lastPosFor_foldl_init]
          cases lastPosFor e.id us <;> rfl
        rw [hstep]
      rw [hfst, List.all_cons, hvf]
      simp

end SharedLists

namespace SharedLists

/-! ## Theorems for claims C1, C4, C9 -/

/-- Counterexample to claim C1 as stated: for the sibling set with entities
1 and 2 and the batch updating entity 1 to position 5 and the unknown
entity 99 to position 0, the batch fails — yet entity 1's update has been
applied: the failed batch leaves the server state partially updated rather
than unchanged. -/
theorem reorder_batch_not_atomic :
    (promiseAllPatches [⟨1, 0⟩, ⟨2, 1⟩] [(1, 5), (99, 0)]).2 = false ∧
    (promiseAllPatches [⟨1, 0⟩, ⟨2, 1⟩] [(1, 5), (99, 0)]).1 ≠
      [⟨1, 0⟩, ⟨2, 1⟩] ∧
    (promiseAllPatches [⟨1, 0⟩, ⟨2, 1⟩] [(1, 5), (99, 0)]).1 =
      [⟨1, 5⟩, ⟨2, 1⟩] := by
  refine ⟨rfl, ?_, rfl⟩
  decide

/-- Claim C1 as amended: the reorder batch is issued as independent
per-entity requests (`Promise.all`), so it is not applied atomically —
every update whose id belongs to the sibling set takes effect on its own
(last write per id wins) whether or not other updates of the batch fail,
and the batch as a whole reports failure exactly when some update's id is
missing from the sibling set.  Only the client-side cache is restored on
failure (claim C9). -/
theorem reorder_batch_applies_updates_independently
    (db : List Entity) (ups : List (Nat × Nat)) :
    (promiseAllPatches db ups).1 = applyBatch db ups ∧
    (promiseAllPatches db ups).2 =
      ups.all (fun u => db.any (fun e => e.id == u.1)) := by
  unfold promiseAllPatches
  rw [promiseAll_foldl_spec ups db true]
  simp

/-- Claim C4: for a completed drag with unique ids, the computed update
batch (i) turns the sibling set into exactly the requested order annotated
with consecutive positions 0..n-1, (ii) makes any strictly
position-sorted arrangement of the updated sibling set list exactly the
requested order, and (iii) mentions only entities of this sibling set
whose position actually changed. -/
theorem drag_reorder_updates
    (lists : List Entity) (activeId overId : Nat) (ups : List (Nat × Nat))
    (hnd : (lists.map Entity.id).Nodup)
    (h : handleDragEnd lists activeId overId = some ups) :
    (applyBatch lists ups).Perm
        (withIndexPositions (requestedOrder lists activeId overId)) ∧
    (∀ s : List Entity, s.Perm (applyBatch lists ups) →
        s.Pairwise (fun a b => a.position < b.position) →
        s.map Entity.id =
          (requestedOrder lists activeId overId).map Entity.id) ∧
    (∀ u ∈ ups, ∃ e ∈ lists, e.id = u.1 ∧ e.position ≠ u.2) := by
  unfold handleDragEnd at h
  by_cases hao : activeId = overId
  · simp [hao] at h
  · rw [if_neg hao] at h
    cases hA : lists.findIdx? (fun l => l.id == activeId) with
    | none => rw [hA] at h; simp at h
    | some i =>
      cases hO : lists.findIdx? (fun l => l.id == overId) with
      | none => rw [hA, hO] at h; simp at h
      | some j =>
        rw [hA, hO] at h
        have hi : i < lists.length :=
          (List.findIdx?_eq_some_iff_findIdx_eq.mp hA).1
        have hj : j < lists.length :=
          (List.findIdx?_eq_some_iff_findIdx_eq.mp hO).1
        have hperm : (arrayMove lists i j).Perm lists :=
          arrayMove_perm lists i j hi hj
        have h2 : (if changedUpdates lists (withIndexPositions (arrayMove lists i j)) = []
              then none
              else some (changedUpdates lists (withIndexPositions (arrayMove lists i j)))) =
            some ups := h
        have hups : ups = changedUpdates lists (arrayMove lists i j) := by
          rw [← changedUpdates_withIndexPositions lists (arrayMove lists i j)]
          by_cases hc :
              changedUpdates lists (withIndexPositions (arrayMove lists i j)) = []
          · rw [if_pos hc] at h2
            exact absurd h2 (by simp)
          · rw [if_neg hc] at h2
            simpa using h2.symm
        have hreq : requestedOrder lists activeId overId = arrayMove lists i j := by
          unfold requestedOrder
          rw [hA, hO]
        have hmain : applyBatch (arrayMove lists i j)
              (changedUpdates lists (arrayMove lists i j)) =
            withIndexPositions (arrayMove lists i j) :=
          applyBatch_changedUpdates hnd hperm
        have hperm2 : (applyBatch lists ups).Perm
            (withIndexPositions (arrayMove lists i j)) := by
          rw [hups, ← hmain]
          unfold applyBatch
          exact (hperm.map _).symm
        refine ⟨?_, ?_, ?_⟩
        · rw [hreq]
          exact hperm2
        · intro s hs hsorted
          rw [hreq]
          have hsp : s.Perm (withIndexPositions (arrayMove lists i j)) :=
            hs.trans hperm2
          have heq : s = withIndexPositions (arrayMove lists i j) :=
            List.eq_of_perm_of_sorted hsp hsorted
              (withIndexPositions_sorted (arrayMove lists i j))
          rw [heq, withIndexPositions_map_id]
        · intro u hu
          rw [hups] at hu
          obtain ⟨k, e, hk, rfl, hne⟩ := mem_changedUpdates.mp hu
          have hel : e ∈ lists := hperm.mem_iff.mp (List.getElem?_mem hk)
          refine ⟨e, hel, rfl, ?_⟩
          rw [find?_id_self lists hnd e hel] at hne
          simpa using hne

/-- Witness for claim C4: dragging entity 12 onto entity 10 in the sibling
set [10, 11, 12] (positions 0, 1, 2) produces the batch
[(12, 0), (10, 1), (11, 2)], whose application realizes the order
[12, 10, 11]. -/
theorem drag_reorder_updates_witness :
    (applyBatch [⟨10, 0⟩, ⟨11, 1⟩, ⟨12, 2⟩] [(12, 0), (10, 1), (11, 2)]).Perm
        (withIndexPositions (requestedOrder [⟨10, 0⟩, ⟨11, 1⟩, ⟨12, 2⟩] 12 10)) ∧
    (∀ s : List Entity,
        s.Perm (applyBatch [⟨10, 0⟩, ⟨11, 1⟩, ⟨12, 2⟩] [(12, 0), (10, 1), (11, 2)]) →
        s.Pairwise (fun a b => a.position < b.position) →
        s.map Entity.id =
          (requestedOrder [⟨10, 0⟩, ⟨11, 1⟩, ⟨12, 2⟩] 12 10).map Entity.id) ∧
    (∀ u ∈ [((12 : Nat), (0 : Nat)), (10, 1), (11, 2)],
        ∃ e ∈ [(⟨10, 0⟩ : Entity), ⟨11, 1⟩, ⟨12, 2⟩],
          e.id = u.1 ∧ e.position ≠ u.2) :=
  drag_reorder_updates [⟨10, 0⟩, ⟨11, 1⟩, ⟨12, 2⟩] 12 10
    [(12, 0), (10, 1), (11, 2)] (by decide) (by decide)

/-- Claim C9: when a reorder batch fails, the client cache of the sibling
set ends exactly at the snapshot taken before the optimistic update, so
the displayed order after the failure is the order before the drag. -/
theorem failed_reorder_restores_cache
    (cache : Option (List Entity)) (ups : List (Nat × Nat)) :
    reorderWithFailure cache ups = cache := by
  cases cache <;> rfl

end SharedLists

namespace SharedLists

/-! ## Read-side ordering (claim C5) -/

/-- A list or item row as returned by a listing endpoint: id, the
`position` column, and its creation instant (the `created_at` column). -/
structure Row where
  id : Nat
  position : Nat
  createdAt : Nat
deriving DecidableEq, Repr

/-- Ascending by `position`, ties broken by creation order. -/
def rowLe (a b : Row) : Bool :=
  a.position < b.position ||
    (a.position == b.position && a.createdAt ≤ b.createdAt)

/-- Modelled from the spec: the backend listing endpoints
(`GET /pages/:id/lists`, `GET /lists/:id/items`) are not among the sources
under src; per the spec's read-side rule they return the rows pre-sorted
ascending by `position`, ties broken by creation order (a stable secondary
key). -/
def listingEndpoint (rows : List Row) : List Row :=
  rows.mergeSort rowLe

/-- The `select` of the lists/items queries in PageView and ListCard:
`[...data].sort((a, b) => a.position - b.position)` — a stable sort of the
fetched array, ascending by position (JavaScript Array.prototype.sort is
stable). -/
def selectSort (data : List Row) : List Row :=
  data.mergeSort (fun a b => a.position ≤ b.position)

theorem rowLe_trans (a b c : Row) (h1 : rowLe a b = true) (h2 : rowLe b c = true) :
    rowLe a c = true := by
  simp only [rowLe, Bool.or_eq_true, Bool.and_eq_true, decide_eq_true_eq,
    beq_iff_eq] at h1 h2 ⊢
  omega

theorem rowLe_total (a b : Row) : (rowLe a b || rowLe b a) = true := by
  simp only [rowLe, Bool.or_eq_true, Bool.and_eq_true, decide_eq_true_eq,
    beq_iff_eq]
  omega

/-- Claim C5: the sequence the frontend presents for a listing — the
endpoint's rows re-sorted by the query's `select` — is ascending by
position, and rows of equal position appear in creation order; the output
is a function of the fetched rows, hence deterministic. -/
theorem listing_sorted_by_position_then_creation (rows : List Row) :
    (selectSort (listingEndpoint rows)).Pairwise
        (fun a b => a.position ≤ b.position) ∧
    (selectSort (listingEndpoint rows)).Pairwise
        (fun a b => a.position = b.position → a.createdAt ≤ b.createdAt) := by
  have hsorted : (listingEndpoint rows).Pairwise (fun a b => rowLe a b = true) :=
    List.sorted_mergeSort rowLe_trans rowLe_total rows
  have hstable : selectSort (listingEndpoint rows) = listingEndpoint rows := by
    unfold selectSort
    apply List.mergeSort_of_sorted
    refine hsorted.imp ?_
    intro a b hab
    simp only [rowLe, Bool.or_eq_true, Bool.and_eq_true, decide_eq_true_eq,
      beq_iff_eq] at hab
    simp only [decide_eq_true_eq]
    omega
  rw [hstable]
  constructor
  · refine hsorted.imp ?_
    intro a b hab
    simp only [rowLe, Bool.or_eq_true, Bool.and_eq_true, decide_eq_true_eq,
      beq_iff_eq] at hab
    omega
  · refine hsorted.imp ?_
    intro a b hab heq
    simp only [rowLe, Bool.or_eq_true, Bool.and_eq_true, decide_eq_true_eq,
      beq_iff_eq] at hab
    omega

/-! ## The public read view (claim C2)

The repository holds two public-page `ListCard` implementations: the one
in `src/frontend/src/pages/PublicPageView.tsx` (the module the app routes
import), and a flag-aware variant among the unnamed sources.  Both are
embedded; their rendered output is reduced to what the claim is about:
whether a checkbox, strike-through, progress badge and progress bar
appear. -/

/-- An item of a list as the public payload carries it. -/
structure PublicItem where
  checked : Bool
  content : String
deriving DecidableEq, Repr

/-- A list of the public payload: title, the two visibility flags of
migration 004, and its items. -/
structure PublicList where
  title : String
  show_checkboxes : Bool
  show_progress : Bool
  items : List PublicItem
deriving DecidableEq, Repr

/-- One rendered item row: the checkbox (with its checked state) when one
is rendered, whether the text is struck through, and the text itself. -/
structure RenderedItemRow where
  checkbox : Option Bool
  struckThrough : Bool
  content : String
deriving DecidableEq, Repr

/-- The rendered header: whether the completed/total progress badge and
the progress bar appear. -/
structure RenderedHeader where
  progressBadge : Bool
  progressBar : Bool
deriving DecidableEq, Repr

/-- The item row as `ListCard` in `src/frontend/src/pages/PublicPageView.tsx`
renders it: a disabled checkbox for every item, strike-through for every
checked item — the list's flags are never consulted. -/
def renderItemRowPublicPageView (_l : PublicList) (it : PublicItem) :
    RenderedItemRow :=
  { checkbox := some it.checked,
    struckThrough := it.checked,
    content := it.content }

/-- The header as the same component renders it: the completed/total badge
always, the progress bar whenever the list has items — regardless of
`show_progress`. -/
def renderHeaderPublicPageView (l : PublicList) : RenderedHeader :=
  { progressBadge := true,
    progressBar := 0 < l.items.length }

/-- The item row as the flag-aware public `ListCard` variant (among the
unnamed sources) renders it: the checkbox only when `show_checkboxes` is
set, strike-through only for checked items while checkboxes are shown. -/
def renderItemRowFlagAware (l : PublicList) (it : PublicItem) :
    RenderedItemRow :=
  { checkbox := if l.show_checkboxes then some it.checked else none,
    struckThrough := it.checked && l.show_checkboxes,
    content := it.content }

/-- The header of the flag-aware variant: the completed/total progress
badge only when `show_progress` is set (a plain count badge otherwise),
the progress bar only for non-empty lists with `show_progress` set. -/
def renderHeaderFlagAware (l : PublicList) : RenderedHeader :=
  { progressBadge := l.show_progress,
    progressBar := 0 < l.items.length && l.show_progress }

/-- Claim C2 evaluated at the failing input — a list with both flags off
and one unchecked item: the routed public view
(`src/frontend/src/pages/PublicPageView.tsx`) still renders the item's
checkbox and the progress indicators, while the flag-aware variant
suppresses both; the item text passes through unchanged either way, so the
flags touch presentation only. -/
theorem public_view_ignores_visibility_flags :
    (renderItemRowPublicPageView ⟨"Produce", false, false, [⟨false, "apples"⟩]⟩
        ⟨false, "apples"⟩).checkbox = some false ∧
    (renderHeaderPublicPageView
        ⟨"Produce", false, false, [⟨false, "apples"⟩]⟩).progressBadge = true ∧
    (renderHeaderPublicPageView
        ⟨"Produce", false, false, [⟨false, "apples"⟩]⟩).progressBar = true ∧
    (renderItemRowFlagAware ⟨"Produce", false, false, [⟨false, "apples"⟩]⟩
        ⟨false, "apples"⟩).checkbox = none ∧
    (renderHeaderFlagAware
        ⟨"Produce", false, false, [⟨false, "apples"⟩]⟩).progressBadge = false ∧
    (renderHeaderFlagAware
        ⟨"Produce", false, false, [⟨false, "apples"⟩]⟩).progressBar = false ∧
    (renderItemRowPublicPageView ⟨"Produce", false, false, [⟨false, "apples"⟩]⟩
        ⟨false, "apples"⟩).content = "apples" ∧
    (renderItemRowFlagAware ⟨"Produce", false, false, [⟨false, "apples"⟩]⟩
        ⟨false, "apples"⟩).content = "apples" :=
  ⟨rfl, rfl, rfl, rfl, rfl, rfl, rfl, rfl⟩

end SharedLists
